import Mathlib

/-!
Shallow embedding of the Nickel evaluation stack (`src/stack.rs`).

The Rust module defines an enum `Marker` with four variants (`Eq`, `Arg`,
`Thunk`, `Cont`) and a `Stack(Vec<Marker>)` with push/pop/peek/count
operations.  We embed the stack as a Lean list whose HEAD is the TOP of the
stack (the tail of the Rust `Vec`): Rust `push` is `cons`, Rust `pop`
removes the head.  The external payload types — `Closure`, `OperationCont`,
`RawSpan` and `Weak<RefCell<Closure>>` — are opaque to this module, so we
parameterize over them as `C`, `O`, `S`, `W`.  `usize` is embedded as `Nat`
(no arithmetic is performed on it, so overflow is irrelevant).
-/

namespace NickelStack

variable {C O S W : Type}

/-- An element of the stack (`enum Marker` in `stack.rs`):
an equality to test, an argument of an application, a thunk
(weak pointer to a memoization cell), or the continuation of a primitive
operation together with the saved call-stack size and an optional span. -/
inductive Marker (C O S W : Type) where
  | Eq : C → C → Marker C O S W
  | Arg : C → Option S → Marker C O S W
  | Thunk : W → Marker C O S W
  | Cont : O → Nat → Option S → Marker C O S W

/-- `Marker::is_arg`. -/
def Marker.is_arg : Marker C O S W → Bool
  | .Arg _ _ => true
  | _ => false

/-- `Marker::is_thunk`. -/
def Marker.is_thunk : Marker C O S W → Bool
  | .Thunk _ => true
  | _ => false

/-- `Marker::is_cont`. -/
def Marker.is_cont : Marker C O S W → Bool
  | .Cont _ _ _ => true
  | _ => false

/-- `Marker::is_eq`. -/
def Marker.is_eq : Marker C O S W → Bool
  | .Eq _ _ => true
  | _ => false

/-- The evaluation stack (`struct Stack(Vec<Marker>)`).  The head of
`frames` is the top of the stack, i.e. the last element of the Rust `Vec`. -/
structure Stack (C O S W : Type) where
  frames : List (Marker C O S W)

/-- `Stack::new`: the empty stack. -/
def Stack.new : Stack C O S W := ⟨[]⟩

/-- `Stack::count`: the number of consecutive elements satisfying `pred`
from the top of the stack (the Rust loop walks `iter().rev()`, i.e. from
the top, incrementing while `pred` holds and breaking at the first
failure). -/
def countFrom (pred : Marker C O S W → Bool) : List (Marker C O S W) → Nat
  | [] => 0
  | m :: rest => if pred m then countFrom pred rest + 1 else 0

/-- `Stack::count` packaged on the stack type. -/
def Stack.count (s : Stack C O S W) (pred : Marker C O S W → Bool) : Nat :=
  countFrom pred s.frames

/-- `Stack::count_args`: the number of arguments at the top of the stack. -/
def Stack.count_args (s : Stack C O S W) : Nat :=
  s.count Marker.is_arg

/-- `Stack::push_arg`. -/
def Stack.push_arg (s : Stack C O S W) (arg : C) (pos : Option S) : Stack C O S W :=
  ⟨Marker.Arg arg pos :: s.frames⟩

/-- `Stack::push_thunk`. -/
def Stack.push_thunk (s : Stack C O S W) (thunk : W) : Stack C O S W :=
  ⟨Marker.Thunk thunk :: s.frames⟩

/-- `Stack::push_op_cont`. -/
def Stack.push_op_cont (s : Stack C O S W) (cont : O) (len : Nat) (pos : Option S) :
    Stack C O S W :=
  ⟨Marker.Cont cont len pos :: s.frames⟩

/-- `Stack::push_eqs`: `self.0.extend(it.map(|(t1, t2)| Marker::Eq(t1, t2)))`.
The pairs are appended at the tail of the `Vec` in iteration order, so with
head-as-top the mapped list is reversed onto the front. -/
def Stack.push_eqs (s : Stack C O S W) (it : List (C × C)) : Stack C O S W :=
  ⟨(it.map fun p => Marker.Eq p.1 p.2).reverse ++ s.frames⟩

/-- `Stack::pop_arg`: pops the top element; if it is an `Arg`, returns its
payload, otherwise pushes it back and returns `None`.  The mutable borrow is
embedded by returning the resulting stack alongside the optional value. -/
def Stack.pop_arg (s : Stack C O S W) : Option (C × Option S) × Stack C O S W :=
  match s.frames with
  | Marker.Arg arg pos :: rest => (some (arg, pos), ⟨rest⟩)
  | _ :: _ => (none, s)
  | [] => (none, s)

/-- `Stack::pop_thunk`. -/
def Stack.pop_thunk (s : Stack C O S W) : Option W × Stack C O S W :=
  match s.frames with
  | Marker.Thunk thunk :: rest => (some thunk, ⟨rest⟩)
  | _ :: _ => (none, s)
  | [] => (none, s)

/-- `Stack::pop_op_cont`. -/
def Stack.pop_op_cont (s : Stack C O S W) :
    Option (O × Nat × Option S) × Stack C O S W :=
  match s.frames with
  | Marker.Cont cont len pos :: rest => (some (cont, len, pos), ⟨rest⟩)
  | _ :: _ => (none, s)
  | [] => (none, s)

/-- Result of `Stack::pop_eq`.  Unlike the other pops, the Rust code first
checks `self.0.last().map(Marker::is_eq).unwrap_or(false)` and then pops
and re-matches, with an explicit `panic!()` arm for the case where the
popped element is not an `Eq`; `panicked` records that aborting branch. -/
inductive PopEqResult (C O S W : Type) where
  | popped : C × C → Stack C O S W → PopEqResult C O S W
  | absent : Stack C O S W → PopEqResult C O S W
  | panicked : PopEqResult C O S W

/-- `Stack::pop_eq`. -/
def Stack.pop_eq (s : Stack C O S W) : PopEqResult C O S W :=
  if (s.frames.head?.map Marker.is_eq).getD false then
    match s.frames with
    | Marker.Eq c1 c2 :: rest => .popped (c1, c2) ⟨rest⟩
    | _ => .panicked
  else
    .absent s

/-- `Stack::is_top_thunk`: `self.0.last().map(Marker::is_thunk).unwrap_or(false)`. -/
def Stack.is_top_thunk (s : Stack C O S W) : Bool :=
  (s.frames.head?.map Marker.is_thunk).getD false

/-- `Stack::is_top_cont`: `self.0.last().map(Marker::is_cont).unwrap_or(false)`. -/
def Stack.is_top_cont (s : Stack C O S W) : Bool :=
  (s.frames.head?.map Marker.is_cont).getD false

/-- If `pop_eq` pops, the stack shrinks by one frame. -/
theorem pop_eq_popped_length {s s' : Stack C O S W} {p : C × C}
    (h : s.pop_eq = .popped p s') : s'.frames.length < s.frames.length := by
  unfold Stack.pop_eq at h
  split at h
  · rename_i htop
    split at h
    · rename_i c1 c2 rest heq
      cases h
      simp [heq]
    · exact absurd h (by simp)
  · exact absurd h (by simp)

/-- `Stack::clear_eqs`: `while self.pop_eq().is_some() {}`.  The loop is
embedded by well-founded recursion on the stack length; the unreachable
`panic!()` inside `pop_eq` is surfaced as the `none` outcome (the Rust
program would abort there). -/
def Stack.clear_eqs (s : Stack C O S W) : Option (Stack C O S W) :=
  match h : s.pop_eq with
  | .popped _ s' => s'.clear_eqs
  | .absent s' => some s'
  | .panicked => none
termination_by s.frames.length
decreasing_by exact pop_eq_popped_length h

/-- Modelled from the spec: resolution of a `Weak<RefCell<Closure>>` handle
(the standard-library `Weak::upgrade`, external to `stack.rs`).  The heap of
memoization cells is a list of slots, a slot being `none` once its cell has
been deallocated; resolving a weak handle "either yields the live cell or
absent", never an error.  A weak handle is embedded as the `Nat` index of
its slot. -/
def resolveWeak (heap : List (Option C)) (w : Nat) : Option C :=
  (heap[w]?).join

/-- Statement harness: pop with `pop_eq` up to `n` times, collecting the
popped pairs in order and stopping at the first non-`popped` outcome. -/
def Stack.popEqTimes (s : Stack C O S W) : Nat → List (C × C) × Stack C O S W
  | 0 => ([], s)
  | n + 1 =>
    match s.pop_eq with
    | .popped p s' =>
      let r := s'.popEqTimes n
      (p :: r.1, r.2)
    | _ => ([], s)

/-- Statement harness: a sequence of `push_arg` calls, in list order. -/
def Stack.pushArgSeq (s : Stack C O S W) : List (C × Option S) → Stack C O S W
  | [] => s
  | (v, sp) :: rest => (s.push_arg v sp).pushArgSeq rest

/-- Statement harness: pop with `pop_arg` up to `n` times, collecting the
returned value/span pairs in order and stopping at the first `none`. -/
def Stack.popArgTimes (s : Stack C O S W) : Nat → List (C × Option S) × Stack C O S W
  | 0 => ([], s)
  | n + 1 =>
    match s.pop_arg with
    | (some v, s') =>
      let r := s'.popArgTimes n
      (v :: r.1, r.2)
    | (none, _) => ([], s)

/-- `pop_eq` on a stack whose top frame is `Eq c1 c2` pops that frame. -/
theorem pop_eq_cons_eq (c1 c2 : C) (rest : List (Marker C O S W)) :
    (⟨Marker.Eq c1 c2 :: rest⟩ : Stack C O S W).pop_eq
      = .popped (c1, c2) ⟨rest⟩ := by
  simp [Stack.pop_eq, Marker.is_eq]

/-- `pop_eq` on a stack whose top is not an `Eq` frame returns `absent`
with the same stack. -/
theorem pop_eq_not_eq_topped (s : Stack C O S W)
    (h : (s.frames.head?.map Marker.is_eq).getD false = false) :
    s.pop_eq = .absent s := by
  unfold Stack.pop_eq
  simp [h]

/-- Popping `qs.length` times from a stack whose top part is the `Eq`
frames of `qs` (top first) yields exactly `qs` and uncovers `rest`. -/
theorem popEqTimes_eq_run (qs : List (C × C)) (rest : List (Marker C O S W)) :
    (⟨(qs.map fun p => Marker.Eq p.1 p.2) ++ rest⟩ : Stack C O S W).popEqTimes qs.length
      = (qs, ⟨rest⟩) := by
  induction qs with
  | nil => rfl
  | cons p t ih =>
    simp only [List.map_cons, List.cons_append, List.length_cons, Stack.popEqTimes,
      pop_eq_cons_eq, ih]

/-- The frames produced by a sequence of `push_arg` calls: the values end
up on top of the old frames, in reverse sequence order. -/
theorem pushArgSeq_frames (s : Stack C O S W) (vs : List (C × Option S)) :
    (s.pushArgSeq vs).frames
      = (vs.map fun v => Marker.Arg v.1 v.2).reverse ++ s.frames := by
  induction vs generalizing s with
  | nil => simp [Stack.pushArgSeq]
  | cons v t ih => simp [Stack.pushArgSeq, ih, Stack.push_arg]

/-- Popping `qs.length` times from a stack whose top part is the `Arg`
frames of `qs` (top first) yields exactly `qs` and uncovers `rest`. -/
theorem popArgTimes_arg_run (qs : List (C × Option S)) (rest : List (Marker C O S W)) :
    (⟨(qs.map fun v => Marker.Arg v.1 v.2) ++ rest⟩ : Stack C O S W).popArgTimes qs.length
      = (qs, ⟨rest⟩) := by
  induction qs with
  | nil => rfl
  | cons v t ih =>
    simp only [List.map_cons, List.cons_append, List.length_cons, Stack.popArgTimes,
      Stack.pop_arg, ih]

/-- If `pop_eq` pops, `clear_eqs` continues on the remaining stack. -/
theorem clear_eqs_of_popped {s s' : Stack C O S W} {p : C × C}
    (h : s.pop_eq = .popped p s') : s.clear_eqs = s'.clear_eqs := by
  rw [Stack.clear_eqs]
  split
  · rename_i heq
    rw [h] at heq
    cases heq
    rfl
  · rename_i heq
    rw [h] at heq
    cases heq
  · rename_i heq
    rw [h] at heq
    cases heq

/-- If `pop_eq` returns `absent`, `clear_eqs` stops with that stack. -/
theorem clear_eqs_of_absent {s s' : Stack C O S W}
    (h : s.pop_eq = .absent s') : s.clear_eqs = some s' := by
  rw [Stack.clear_eqs]
  split
  · rename_i heq
    rw [h] at heq
    cases heq
  · rename_i heq
    rw [h] at heq
    cases heq
    rfl
  · rename_i heq
    rw [h] at heq
    cases heq

/-- `clear_eqs` eats a whole top run of `Eq` frames. -/
theorem clear_eqs_eq_run (qs : List (C × C)) (rest : List (Marker C O S W)) :
    (⟨(qs.map fun p => Marker.Eq p.1 p.2) ++ rest⟩ : Stack C O S W).clear_eqs
      = (⟨rest⟩ : Stack C O S W).clear_eqs := by
  induction qs with
  | nil => rfl
  | cons p t ih =>
    rw [List.map_cons, List.cons_append, clear_eqs_of_popped (pop_eq_cons_eq p.1 p.2 _), ih]

/-- `countFrom` computes the length of the maximal matching prefix. -/
theorem countFrom_eq_takeWhile (pred : Marker C O S W → Bool)
    (l : List (Marker C O S W)) :
    countFrom pred l = (l.takeWhile pred).length := by
  induction l with
  | nil => rfl
  | cons m rest ih =>
    by_cases h : pred m = true
    · simp [countFrom, List.takeWhile_cons, h, ih]
    · simp only [Bool.not_eq_true] at h
      simp [countFrom, List.takeWhile_cons, h]

/-- C1: `push_eqs [p1, ..., pn]` appends one `Eq` frame per pair in
iteration order; the following `n` `pop_eq` calls return the pairs in
reverse of the supplied order and restore the original stack, and one more
`pop_eq` returns `absent` when the original stack was empty or not
`Eq`-topped. -/
theorem push_eqs_pop_reversed (s : Stack C O S W) (ps : List (C × C))
    (h : (s.frames.head?.map Marker.is_eq).getD false = false) :
    (s.push_eqs ps).popEqTimes ps.length = (ps.reverse, s) ∧ s.pop_eq = .absent s := by
  constructor
  · have hframes : (s.push_eqs ps).frames
        = (ps.reverse.map fun p => Marker.Eq p.1 p.2) ++ s.frames := by
      simp [Stack.push_eqs, List.map_reverse]
    have := popEqTimes_eq_run ps.reverse s.frames
    rw [List.length_reverse] at this
    calc (s.push_eqs ps).popEqTimes ps.length
        = (⟨(ps.reverse.map fun p => Marker.Eq p.1 p.2) ++ s.frames⟩ :
            Stack C O S W).popEqTimes ps.length := by rw [← hframes]
      _ = (ps.reverse, s) := this
  · exact pop_eq_not_eq_topped s h

/-- C1 witness: three pairs pushed onto the empty stack come back reversed,
and a fourth pop is absent. -/
theorem push_eqs_pop_reversed_witness :
    ((Stack.new : Stack Nat Nat Nat Nat).push_eqs [(1, 2), (3, 4), (5, 6)]).popEqTimes 3
        = ([(5, 6), (3, 4), (1, 2)], Stack.new) ∧
      (Stack.new : Stack Nat Nat Nat Nat).pop_eq = .absent Stack.new :=
  push_eqs_pop_reversed Stack.new [(1, 2), (3, 4), (5, 6)] rfl

/-- C2: any sequence of `push_arg` calls followed by the same number of
`pop_arg` calls returns the value/span pairs in exact reverse push order
and restores the original stack. -/
theorem push_args_pop_reversed (s : Stack C O S W) (vs : List (C × Option S)) :
    (s.pushArgSeq vs).popArgTimes vs.length = (vs.reverse, s) := by
  have := popArgTimes_arg_run vs.reverse s.frames
  rw [List.length_reverse] at this
  calc (s.pushArgSeq vs).popArgTimes vs.length
      = (⟨(vs.reverse.map fun v => Marker.Arg v.1 v.2) ++ s.frames⟩ :
          Stack C O S W).popArgTimes vs.length := by
        rw [List.map_reverse, ← pushArgSeq_frames]
    _ = (vs.reverse, s) := this

/-- C3: each conditional pop called on an empty stack or with a
non-matching top frame returns `none`/`absent` and leaves the stack
exactly unchanged (hence repeated calls keep returning absent without
mutation). -/
theorem conditional_pops_leave_unchanged (s : Stack C O S W) :
    ((s.frames.head?.map Marker.is_arg).getD false = false → s.pop_arg = (none, s)) ∧
    (s.is_top_thunk = false → s.pop_thunk = (none, s)) ∧
    (s.is_top_cont = false → s.pop_op_cont = (none, s)) ∧
    ((s.frames.head?.map Marker.is_eq).getD false = false → s.pop_eq = .absent s) := by
  obtain ⟨frames⟩ := s
  match frames with
  | [] =>
    refine ⟨fun _ => rfl, fun _ => rfl, fun _ => rfl, fun _ => rfl⟩
  | m :: rest =>
    cases m <;>
      simp [Stack.pop_arg, Stack.pop_thunk, Stack.pop_op_cont, Stack.pop_eq,
        Stack.is_top_thunk, Stack.is_top_cont,
        Marker.is_arg, Marker.is_thunk, Marker.is_cont, Marker.is_eq]

/-- C3 witness: on the empty stack, every conditional pop is absent and
leaves the stack empty. -/
theorem conditional_pops_leave_unchanged_witness :
    (Stack.new : Stack Nat Nat Nat Nat).pop_arg = (none, Stack.new) ∧
      (Stack.new : Stack Nat Nat Nat Nat).pop_thunk = (none, Stack.new) ∧
      (Stack.new : Stack Nat Nat Nat Nat).pop_op_cont = (none, Stack.new) ∧
      (Stack.new : Stack Nat Nat Nat Nat).pop_eq = .absent Stack.new :=
  ⟨(conditional_pops_leave_unchanged Stack.new).1 rfl,
   (conditional_pops_leave_unchanged Stack.new).2.1 rfl,
   (conditional_pops_leave_unchanged Stack.new).2.2.1 rfl,
   (conditional_pops_leave_unchanged Stack.new).2.2.2 rfl⟩

/-- C4: `pop_eq` never reaches its `panic!()` arm — its result is always a
popped pair or `absent` (the other pops are total by construction and have
no aborting branch at all). -/
theorem pop_eq_no_panic (s : Stack C O S W) :
    (∃ p s', s.pop_eq = .popped p s') ∨ (∃ s', s.pop_eq = .absent s') := by
  obtain ⟨frames⟩ := s
  match frames with
  | [] => exact Or.inr ⟨_, rfl⟩
  | Marker.Eq c1 c2 :: rest => exact Or.inl ⟨(c1, c2), ⟨rest⟩, pop_eq_cons_eq c1 c2 rest⟩
  | Marker.Arg _ _ :: rest => exact Or.inr ⟨_, pop_eq_not_eq_topped _ rfl⟩
  | Marker.Thunk _ :: rest => exact Or.inr ⟨_, pop_eq_not_eq_topped _ rfl⟩
  | Marker.Cont _ _ _ :: rest => exact Or.inr ⟨_, pop_eq_not_eq_topped _ rfl⟩

/-- C5: pushing `n` `Eq` frames (with nothing in between) onto a stack
that is not `Eq`-topped and then calling `clear_eqs` removes exactly those
frames, leaving the original stack untouched — and a following `pop_eq`
on it yields `absent`. -/
theorem clear_eqs_removes_pushed_run (s : Stack C O S W) (ps : List (C × C))
    (h : (s.frames.head?.map Marker.is_eq).getD false = false) :
    (s.push_eqs ps).clear_eqs = some s ∧ s.pop_eq = .absent s := by
  have habs : s.pop_eq = .absent s := pop_eq_not_eq_topped s h
  constructor
  · have hframes : (s.push_eqs ps).frames
        = (ps.reverse.map fun p => Marker.Eq p.1 p.2) ++ s.frames := by
      simp [Stack.push_eqs, List.map_reverse]
    calc (s.push_eqs ps).clear_eqs
        = (⟨(ps.reverse.map fun p => Marker.Eq p.1 p.2) ++ s.frames⟩ :
            Stack C O S W).clear_eqs := by rw [← hframes]
      _ = (⟨s.frames⟩ : Stack C O S W).clear_eqs := clear_eqs_eq_run ps.reverse s.frames
      _ = some s := clear_eqs_of_absent habs
  · exact habs

/-- C5 witness: two `Eq` frames pushed over a single `Arg` frame are
cleared, leaving the `Arg` frame stack untouched, whose `pop_eq` is
absent. -/
theorem clear_eqs_removes_pushed_run_witness :
    (((Stack.new : Stack Nat Nat Nat Nat).push_arg 7 none).push_eqs
          [(1, 2), (3, 4)]).clear_eqs
        = some ((Stack.new : Stack Nat Nat Nat Nat).push_arg 7 none) ∧
      ((Stack.new : Stack Nat Nat Nat Nat).push_arg 7 none).pop_eq
        = .absent ((Stack.new : Stack Nat Nat Nat Nat).push_arg 7 none) :=
  clear_eqs_removes_pushed_run ((Stack.new : Stack Nat Nat Nat Nat).push_arg 7 none)
    [(1, 2), (3, 4)] rfl

/-- C6: `count_args` is the length of the maximal contiguous top run of
`Arg` frames (the `takeWhile` prefix of the top-first frame list), and
pushing any non-`Arg` frame on top makes it `0` while leaving every frame
below unchanged. -/
theorem count_args_top_run (s : Stack C O S W) (m : Marker C O S W)
    (h : m.is_arg = false) :
    s.count_args = (s.frames.takeWhile Marker.is_arg).length ∧
      (⟨m :: s.frames⟩ : Stack C O S W).count_args = 0 ∧
      (⟨m :: s.frames⟩ : Stack C O S W).frames.tail = s.frames := by
  refine ⟨countFrom_eq_takeWhile Marker.is_arg s.frames, ?_, rfl⟩
  simp [Stack.count_args, Stack.count, countFrom, h]

/-- C6 witness: two args below a `Thunk` frame count as 0 from the top,
with the args intact underneath. -/
theorem count_args_top_run_witness :
    ((((Stack.new : Stack Nat Nat Nat Nat).push_arg 1 none).push_arg 2 none) :
          Stack Nat Nat Nat Nat).count_args
        = (((((Stack.new : Stack Nat Nat Nat Nat).push_arg 1 none).push_arg 2
            none)).frames.takeWhile Marker.is_arg).length ∧
      (⟨Marker.Thunk 0 ::
          (((Stack.new : Stack Nat Nat Nat Nat).push_arg 1 none).push_arg 2 none).frames⟩ :
          Stack Nat Nat Nat Nat).count_args = 0 ∧
      (⟨Marker.Thunk 0 ::
          (((Stack.new : Stack Nat Nat Nat Nat).push_arg 1 none).push_arg 2 none).frames⟩ :
          Stack Nat Nat Nat Nat).frames.tail
        = (((Stack.new : Stack Nat Nat Nat Nat).push_arg 1 none).push_arg 2 none).frames :=
  count_args_top_run (((Stack.new : Stack Nat Nat Nat Nat).push_arg 1 none).push_arg 2 none)
    (Marker.Thunk 0) rfl

/-- C7: `is_top_thunk` holds exactly when the stack is non-empty with a
`Thunk` on top, `is_top_cont` exactly when it is non-empty with a `Cont`
on top; both are `false` on the empty stack (and, being plain functions of
the stack, neither mutates it). -/
theorem is_top_spec (s : Stack C O S W) :
    (s.is_top_thunk = true ↔ ∃ w rest, s.frames = Marker.Thunk w :: rest) ∧
      (s.is_top_cont = true ↔ ∃ o n sp rest, s.frames = Marker.Cont o n sp :: rest) ∧
      (Stack.new : Stack C O S W).is_top_thunk = false ∧
      (Stack.new : Stack C O S W).is_top_cont = false := by
  refine ⟨?_, ?_, rfl, rfl⟩ <;> obtain ⟨frames⟩ := s
  · match frames with
    | [] => simp [Stack.is_top_thunk]
    | m :: rest =>
      cases m <;> simp [Stack.is_top_thunk, Marker.is_thunk]
  · match frames with
    | [] => simp [Stack.is_top_cont]
    | m :: rest =>
      cases m <;> simp [Stack.is_top_cont, Marker.is_cont]

/-- C8: after `push_op_cont(c, 3, None)` then `push_op_cont(c, 4, None)`
on the empty stack, the top run of `Cont` frames has length 2;
`pop_op_cont` returns `(c, 4, None)` and the top run then has length 1. -/
theorem op_cont_scenario (c : O) :
    ((((Stack.new : Stack C O S W).push_op_cont c 3 none).push_op_cont c 4
          none)).count Marker.is_cont = 2 ∧
      ((((Stack.new : Stack C O S W).push_op_cont c 3 none).push_op_cont c 4
          none)).pop_op_cont
        = (some (c, 4, none), (Stack.new : Stack C O S W).push_op_cont c 3 none) ∧
      (((Stack.new : Stack C O S W).push_op_cont c 3 none)).count Marker.is_cont = 1 :=
  ⟨rfl, rfl, rfl⟩

/-- C9: popping a `Thunk` frame whose weak reference points to a
deallocated cell succeeds, returning the weak reference itself, and
resolving that reference yields `none` (absent), not an error. -/
theorem pop_thunk_dead_weak (heap : List (Option C)) (w : Nat)
    (rest : List (Marker C O S Nat)) (h : heap[w]? = some none) :
    (⟨Marker.Thunk w :: rest⟩ : Stack C O S Nat).pop_thunk = (some w, ⟨rest⟩) ∧
      resolveWeak heap w = none := by
  refine ⟨rfl, ?_⟩
  simp [resolveWeak, h]

/-- C9 witness: a one-slot heap whose cell is deallocated. -/
theorem pop_thunk_dead_weak_witness :
    (⟨[Marker.Thunk 0]⟩ : Stack Nat Nat Nat Nat).pop_thunk
        = (some 0, (⟨[]⟩ : Stack Nat Nat Nat Nat)) ∧
      resolveWeak ([none] : List (Option Nat)) 0 = none :=
  pop_thunk_dead_weak [none] 0 [] rfl

/-- C10: for every marker, exactly one of the four classification
predicates `is_arg`, `is_thunk`, `is_cont`, `is_eq` is `true`. -/
theorem marker_exactly_one_predicate (m : Marker C O S W) :
    ((if m.is_arg then 1 else 0) + (if m.is_thunk then 1 else 0) +
        (if m.is_cont then 1 else 0) + (if m.is_eq then 1 else 0) : Nat) = 1 := by
  cases m <;> rfl

end NickelStack
